import Mathlib

/-!
Verification development for the `user_processor` repository.

The file embeds the Python module `src/user_processor.py` shallowly in Lean:

* Python dictionary values that occur in this program are either strings
  (CSV fields, names) or integers; they are modelled by `Field`.
* Python dictionaries are modelled as association lists (`Record`), which
  preserves the insertion order that CPython guarantees.
* Python exceptions are modelled by `PyError`; fallible code returns
  `Except PyError α`.
* The module-level mutable list `data` is modelled by explicit state
  passing (`PyState`), and the `filters` argument of `process_users` is
  passed in and returned explicitly, so mutation of the caller
  dictionaries is visible in the result.
* File contents are modelled as the value written: the report as the list
  of written chunks (`ReportChunk`), the JSON export as the string
  produced by `jsonDumps`.

Functions whose implementation is absent from the repository (the
refactoring skeletons only raise `NotImplementedError`) are additionally
modelled from the specification document; every such definition carries a
doc comment starting with `Modelled from the spec:`.
-/

namespace UserProc

/-- Python exceptions that the embedded code can raise.  `valueError`
carries the offending literal of a failed `int()` conversion (the real
message is `invalid literal for int() with base 10: <literal>`);
`keyError` carries the missing key; `userDataError` is the
`UserDataError` class of the module, carrying its reason string;
`notImplementedError` carries the message of the skeleton placeholder. -/
inductive PyError where
  | valueError (literal : String)
  | keyError (key : String)
  | userDataError (reason : String)
  | notImplementedError (msg : String)
deriving DecidableEq, Repr

/-- Python values stored in the record dictionaries of this program:
strings (raw CSV fields, names) or integers (computed scores, typed
ages). -/
inductive Field where
  | str (s : String)
  | int (n : Int)
deriving DecidableEq, Repr

/-- Rendering of a `Field` by a Python f-string (`str()` of the value). -/
def Field.pyStr : Field → String
  | .str s => s
  | .int n => toString n

/-- A Python dictionary with string keys, as an insertion-ordered
association list (CPython dictionaries preserve insertion order). -/
abbrev Record := List (String × Field)

/-- Dictionary lookup `d[k]` as an optional value. -/
def Record.get (d : Record) (k : String) : Option Field :=
  (d.find? (fun kv => kv.1 = k)).map (fun kv => kv.2)

/-- Dictionary subscript `d[k]`, raising `KeyError` when absent. -/
def recordGet (d : Record) (k : String) : Except PyError Field :=
  match d.get k with
  | some v => .ok v
  | none => .error (.keyError k)

/-- Value of a list of decimal digit characters. -/
def digitsVal (cs : List Char) : Nat :=
  cs.foldl (fun a c => a * 10 + (c.toNat - 48)) 0

/-- Strip leading and trailing whitespace from a character list (the
stripping `int()` performs before parsing). -/
def stripBlanks (cs : List Char) : List Char :=
  ((cs.dropWhile Char.isWhitespace).reverse.dropWhile Char.isWhitespace).reverse

/-- Conversion of a string by the Python builtin `int()`: surrounding
whitespace is stripped, an optional sign is allowed, the remainder must
be a nonempty run of decimal digits.  (PEP 515 underscores are not
modelled; no input of this program contains them.) -/
def pyIntOfString (s : String) : Option Int :=
  match stripBlanks s.data with
  | '-' :: rest =>
      if rest ≠ [] ∧ rest.all Char.isDigit then some (-(digitsVal rest : Int)) else none
  | '+' :: rest =>
      if rest ≠ [] ∧ rest.all Char.isDigit then some ((digitsVal rest : Int)) else none
  | cs =>
      if cs ≠ [] ∧ cs.all Char.isDigit then some ((digitsVal cs : Int)) else none

/-- The Python builtin `int()` on a record value: an integer is returned
unchanged, a string is parsed, and a failed parse raises `ValueError`. -/
def pyInt : Field → Except PyError Int
  | .int n => .ok n
  | .str s =>
      match pyIntOfString s with
      | some n => .ok n
      | none => .error (.valueError s)

/-- Module-level constant `THRESHOLD = 100` of `user_processor.py`. -/
def THRESHOLD : Int := 100

/-- Module-level mutable state of `user_processor.py`: the global list
`data`, which `process_users` appends every freshly read row to and then
iterates over in full. -/
structure PyState where
  data : List Record
deriving DecidableEq, Repr

/-- Source lines 32 to 34: `calculate_score(p, v)` returns
`int(p) * 10 + int(v) * 5`; `int(p)` is evaluated first, so its
`ValueError` is the one raised when both conversions fail. -/
def calculate_score (p v : Field) : Except PyError Int :=
  match pyInt p with
  | .error e => .error e
  | .ok pi =>
      match pyInt v with
      | .error e => .error e
      | .ok vi => .ok (pi * 10 + vi * 5)

/-- Body of the processing loop of `process_users` (source lines 18 to
23) for one dictionary `d`: convert `d` at key `age` with `int()`, and
when `age > 18` compute the score of `d` and keep `d` when the score
exceeds `THRESHOLD`.  Returns `some d` when `d` is kept, `none` when it
is dropped. -/
def processRow (d : Record) : Except PyError (Option Record) :=
  match recordGet d "age" with
  | .error e => .error e
  | .ok ageF =>
      match pyInt ageF with
      | .error e => .error e
      | .ok age =>
          if age > 18 then
            match recordGet d "purchases" with
            | .error e => .error e
            | .ok p =>
                match recordGet d "visits" with
                | .error e => .error e
                | .ok v =>
                    match calculate_score p v with
                    | .error e => .error e
                    | .ok score =>
                        if score > THRESHOLD then .ok (some d) else .ok none
          else .ok none

/-- The processing loop of `process_users` over the full `data` list,
collecting the kept rows in order (fail-fast on the first exception). -/
def processLoop : List Record → Except PyError (List Record)
  | [] => .ok []
  | d :: rest =>
      match processRow d with
      | .error e => .error e
      | .ok kept =>
          match processLoop rest with
          | .error e => .error e
          | .ok out =>
              match kept with
              | some x => .ok (x :: out)
              | none => .ok out

/-- Source line 27: `filter['count'] = filter.get('count', 0) + 1`, a
dictionary assignment that updates the existing `count` entry in place
or appends a fresh one. -/
def incrFilter (f : Record) : Record :=
  let c : Int :=
    match f.get "count" with
    | some (.int n) => n
    | _ => 0
  if f.any (fun kv => kv.1 = "count") then
    f.map (fun kv => if kv.1 = "count" then ("count", Field.int (c + 1)) else kv)
  else
    f ++ [("count", Field.int (c + 1))]

/-- Source lines 8 to 30: `process_users(file, filters)`.  The CSV layer
is abstracted as the list `rows` of record dictionaries parsed from the
file; the module-level list `data` is the explicit state `st`.  The
function first appends every row to `data`, then runs the processing
loop over the whole of `data`, then (only when no exception was raised
by the loop) increments the `count` entry of every dictionary in
`filters`.  It returns the loop result together with the new module
state and the mutated `filters` list. -/
def process_users (st : PyState) (rows : List Record) (filters : List Record) :
    Except PyError (List Record) × PyState × List Record :=
  let newData := st.data ++ rows
  match processLoop newData with
  | .error e => (.error e, ⟨newData⟩, filters)
  | .ok results => (.ok results, ⟨newData⟩, filters.map incrFilter)

/-- One written piece of the report file (source lines 36 to 55).
`userLine nm s` is the line `User: <nm>, Score: <s>`; `totalLine n` is
the blank separator followed by `Total users: <n>`; `avgInt a` is the
line `Average score: <a>` with `a` still the integer initial value `0`
(the case `total = 0`); `avgFloat sum total` is the average line in the
case `total > 0`, where the source writes the Python float
`sum / total` — the chunk records the exact operands of that division,
since no claim below depends on the rendered float digits. -/
inductive ReportChunk where
  | userLine (nm : String) (s : Int)
  | totalLine (n : Nat)
  | avgInt (a : Int)
  | avgFloat (sum : Int) (total : Nat)
deriving DecidableEq, Repr

/-- Per-user work of the report loop (source lines 43 to 46): evaluate
`u['purchases']`, `u['visits']`, `calculate_score` on them, then
`u['name']`, in source order, producing the rendered name and the
recomputed score. -/
def reportUser (u : Record) : Except PyError (String × Int) :=
  match recordGet u "purchases" with
  | .error e => .error e
  | .ok p =>
      match recordGet u "visits" with
      | .error e => .error e
      | .ok v =>
          match calculate_score p v with
          | .error e => .error e
          | .ok s =>
              match recordGet u "name" with
              | .error e => .error e
              | .ok nm => .ok (nm.pyStr, s)

/-- The report loop over all users, fail-fast. -/
def reportUsers : List Record → Except PyError (List (String × Int))
  | [] => .ok []
  | u :: rest =>
      match reportUser u with
      | .error e => .error e
      | .ok hd =>
          match reportUsers rest with
          | .error e => .error e
          | .ok tl => .ok (hd :: tl)

/-- Source lines 36 to 55: `generate_report(users)`.  The report file
content is modelled as the list of written chunks: one `userLine` per
user (with the score recomputed from `purchases` and `visits` by
`calculate_score` — the stored `score` entry of the dictionary is never
read), then `totalLine` with the user count, then unconditionally the
average line: `avgInt 0` when the count is `0` (the variable `avg`
keeps its integer initial value `0`), `avgFloat` with the recomputed
score sum and the count otherwise.  The Python function also returns
`True`; the model returns the written content.  A partially written
file left behind by a mid-loop exception is not modelled. -/
def generate_report (users : List Record) : Except PyError (List ReportChunk) :=
  match reportUsers users with
  | .error e => .error e
  | .ok pairs =>
      let total := users.length
      let lines := pairs.map (fun ns => ReportChunk.userLine ns.1 ns.2)
      let avgChunk :=
        if total > 0 then ReportChunk.avgFloat (pairs.map (fun ns => ns.2)).sum total
        else ReportChunk.avgInt 0
      .ok (lines ++ [ReportChunk.totalLine total, avgChunk])

/-- Source lines 83 to 85: the `ScoringConfig` skeleton class, whose
`__init__(purchase_weight=10, visit_weight=5)` unconditionally raises
`NotImplementedError`; the result type `Empty` records that construction
never yields an object. -/
def ScoringConfig_mk (purchase_weight visit_weight : Int) : Except PyError Empty :=
  .error (.notImplementedError "ScoringConfig.__init__ called")

/-- Source lines 88 to 89: the `read_users_from_csv(filepath)` skeleton,
which unconditionally raises `NotImplementedError`. -/
def read_users_from_csv (filepath : String) : Except PyError (List Record) :=
  .error (.notImplementedError "read_users_from_csv called")

/-- Source lines 92 to 93: the `calculate_user_score(purchases, visits,
config)` skeleton, which unconditionally raises `NotImplementedError`.
Since `ScoringConfig` construction never returns, the `config` argument
can only be `None` or an arbitrary substitute object, modelled as
`Option Unit`. -/
def calculate_user_score (purchases visits : Field) (config : Option Unit) :
    Except PyError Int :=
  .error (.notImplementedError "calculate_user_score called")

/-- Modelled from the spec: the `ScoringPolicy` value object of spec
section 3 (the refactored replacement of the hard-coded constants; the
repository only ships the unimplemented `ScoringConfig` skeleton). -/
structure ScoringPolicy where
  purchase_multiplier : Int
  visit_multiplier : Int
  score_threshold : Int
  min_age : Int
deriving DecidableEq, Repr

/-- Modelled from the spec: the default policy, with
`purchase_multiplier = 10`, `visit_multiplier = 5`,
`score_threshold = 100`, `min_age = 18` (spec section 3), matching the
constants hard-coded in the legacy source (`10` and `5` in
`calculate_score`, `18` and `THRESHOLD = 100` in `process_users`). -/
def defaultPolicy : ScoringPolicy := ⟨10, 5, 100, 18⟩

/-- Modelled from the spec: a `RawRecord` (spec section 3), the four
required fields as raw strings. -/
structure RawRecord where
  name : String
  age : String
  purchases : String
  visits : String
deriving DecidableEq, Repr

/-- Modelled from the spec: a `ProcessedRecord` (spec section 3), the
name plus typed fields and the computed score. -/
structure ProcessedRecord where
  name : String
  age : Int
  purchases : Int
  visits : Int
  score : Int
deriving DecidableEq, Repr

/-- Modelled from the spec: one step of the refactored pipeline of spec
section 4.3 on a single raw record (the repository ships no
implementation, only its tests and skeletons): convert `age` with
`int()`, raising `DataError("Invalid user data")` on failure; compute
the score by the section 4.2 formula, with the same failure on a bad
`purchases` or `visits`; keep the record iff `age > policy.min_age` and
`score > policy.score_threshold`, both strict. -/
def processRecordSpec (policy : ScoringPolicy) (r : RawRecord) :
    Except PyError (Option ProcessedRecord) :=
  match pyIntOfString r.age with
  | none => .error (.userDataError "Invalid user data")
  | some age =>
      match pyIntOfString r.purchases, pyIntOfString r.visits with
      | some p, some v =>
          if age > policy.min_age ∧
              p * policy.purchase_multiplier + v * policy.visit_multiplier >
                policy.score_threshold then
            .ok (some ⟨r.name, age, p, v,
              p * policy.purchase_multiplier + v * policy.visit_multiplier⟩)
          else
            .ok none
      | _, _ => .error (.userDataError "Invalid user data")

/-- Modelled from the spec: the refactored pipeline
`process(raw_records, policy)` of spec section 4.3, fail-fast and
order-preserving. -/
def process : List RawRecord → ScoringPolicy → Except PyError (List ProcessedRecord)
  | [], _ => .ok []
  | r :: rest, policy =>
      match processRecordSpec policy r with
      | .error e => .error e
      | .ok kept =>
          match process rest policy with
          | .error e => .error e
          | .ok out =>
              match kept with
              | some pr => .ok (pr :: out)
              | none => .ok out

/-- Successful conversion of the three numeric fields of a raw record. -/
def convRecord (r : RawRecord) : Option (Int × Int × Int) :=
  match pyIntOfString r.age, pyIntOfString r.purchases, pyIntOfString r.visits with
  | some age, some p, some v => some (age, p, v)
  | _, _, _ => none

/-- Decidable form of the section 4.3 inclusion predicate: the record
converts and both strict comparisons hold. -/
def keptB (r : RawRecord) (policy : ScoringPolicy) : Bool :=
  match convRecord r with
  | some (age, p, v) =>
      decide (age > policy.min_age ∧
        p * policy.purchase_multiplier + v * policy.visit_multiplier >
          policy.score_threshold)
  | none => false

/-- Modelled from the spec: a delimited source for the record reader of
spec section 4.1 — either a missing file, or the file content as lines
already split at the delimiter (the first line being the header). -/
inductive CsvSource where
  | missing
  | file (content : List (List String))
deriving DecidableEq, Repr

/-- The four required header fields of spec section 3. -/
def REQUIRED_FIELDS : List String := ["name", "age", "purchases", "visits"]

/-- Modelled from the spec: the record reader `read_records(source)` of
spec section 4.1 (the repository ships only the unimplemented
`read_users_from_csv` skeleton and its tests).  Order of failures as
listed in the spec: `not found` for a missing source, `empty` for no
content at all or a header with zero data rows, `Missing required
fields` when the header lacks one of the required columns; otherwise one
record per data row, the header zipped with the row, values as raw
strings, order preserved. -/
def read_records : CsvSource → Except PyError (List Record)
  | .missing => .error (.userDataError "not found")
  | .file [] => .error (.userDataError "empty")
  | .file (header :: rows) =>
      if rows = [] then .error (.userDataError "empty")
      else if REQUIRED_FIELDS.all (fun f => header.contains f) then
        .ok (rows.map (fun row => (header.zip row).map (fun kv => (kv.1, Field.str kv.2))))
      else .error (.userDataError "Missing required fields")

/-- The seven data rows of the sample CSV used throughout the test
suite, as raw records. -/
def sampleRaws : List RawRecord :=
  [⟨"Alice Johnson", "25", "15", "30"⟩,
   ⟨"Bob Smith", "17", "5", "10"⟩,
   ⟨"Carol White", "35", "25", "50"⟩,
   ⟨"David Brown", "42", "8", "20"⟩,
   ⟨"Eve Davis", "29", "30", "45"⟩,
   ⟨"Frank Miller", "19", "12", "25"⟩,
   ⟨"Grace Lee", "55", "40", "80"⟩]

/-- The high-threshold policy of the `test_empty_result_with_high_threshold`
scenario: `score_threshold = 10000`, other values default. -/
def highPolicy : ScoringPolicy := ⟨10, 5, 10000, 18⟩

/-! ## JSON export model

Source lines 57 to 61: `export_json(users)` writes `json.dump(users, f)`.
`jsonDumps` below reproduces the text `json.dump` emits for a list of
record dictionaries with the default separators (`", "` between items
and pairs, `": "` between key and value), for records whose strings are
printable ASCII without `"` or backslash (no escaping is then needed;
`json.dump` would escape anything else).  `jsonLoads` models reading the
destination back with `json.load`: a parser for this JSON fragment that
tolerates whitespace between tokens. -/

/-- Decimal digit character of `n < 10`. -/
def digitChar : Nat → Char
  | 0 => '0' | 1 => '1' | 2 => '2' | 3 => '3' | 4 => '4'
  | 5 => '5' | 6 => '6' | 7 => '7' | 8 => '8' | _ => '9'

/-- Canonical decimal digits of a natural number, most significant
first (the text Python prints for a nonnegative `int`). -/
def writeNat (n : Nat) : List Char :=
  if h : n < 10 then [digitChar n]
  else writeNat (n / 10) ++ [digitChar (n % 10)]
termination_by n
decreasing_by
  exact Nat.div_lt_self (by omega) (by omega)

/-- Text Python prints for an `int`: a minus sign for negatives, then
the decimal digits. -/
def writeInt (n : Int) : List Char :=
  if n < 0 then '-' :: writeNat (-n).toNat else writeNat n.toNat

/-- Decimal digit test. -/
def isDigitChar (c : Char) : Bool :=
  48 ≤ c.toNat ∧ c.toNat ≤ 57

/-- Consume a maximal run of digits, accumulating their value. -/
def readDigits : List Char → Nat → Nat × List Char
  | [], acc => (acc, [])
  | c :: cs, acc =>
      if isDigitChar c then readDigits cs (acc * 10 + (c.toNat - 48))
      else (acc, c :: cs)

/-- Parse a nonempty run of digits. -/
def parseNat : List Char → Option (Nat × List Char)
  | [] => none
  | c :: cs => if isDigitChar c then some (readDigits cs (c.toNat - 48)) else none

/-- Parse a JSON integer: optional minus sign, then digits. -/
def parseInt : List Char → Option (Int × List Char)
  | [] => none
  | c :: cs =>
      if c = '-' then (parseNat cs).map (fun r => (-(r.1 : Int), r.2))
      else (parseNat (c :: cs)).map (fun r => ((r.1 : Int), r.2))

/-- Consume string content up to the closing quote. -/
def takeStr : List Char → Option (List Char × List Char)
  | [] => none
  | c :: cs =>
      if c = '"' then some ([], cs)
      else (takeStr cs).map (fun r => (c :: r.1, r.2))

/-- Parse a JSON string literal. -/
def parseStr : List Char → Option (String × List Char)
  | [] => none
  | c :: cs =>
      if c = '"' then (takeStr cs).map (fun r => (String.mk r.1, r.2))
      else none

/-- Parse a JSON value of the exported fragment: a string or an
integer. -/
def parseField (cs : List Char) : Option (Field × List Char) :=
  match cs with
  | [] => none
  | c :: _ =>
      if c = '"' then (parseStr cs).map (fun r => (Field.str r.1, r.2))
      else (parseInt cs).map (fun r => (Field.int r.1, r.2))

/-- Serialization of one value, as `json.dump` writes it. -/
def renderField : Field → List Char
  | .str s => '"' :: s.data ++ ['"']
  | .int n => writeInt n

/-- Serialization of one key-value pair: `"key": value`. -/
def renderPair (kv : String × Field) : List Char :=
  '"' :: kv.1.data ++ '"' :: ':' :: ' ' :: renderField kv.2

/-- Serialization of the pairs of an object, separated by `", "`. -/
def renderPairs : Record → List Char
  | [] => []
  | [kv] => renderPair kv
  | kv :: rest => renderPair kv ++ ',' :: ' ' :: renderPairs rest

/-- Serialization of one record dictionary. -/
def renderRecord (r : Record) : List Char :=
  '{' :: renderPairs r ++ ['}']

/-- Serialization of the top-level array items, separated by `", "`. -/
def renderItems : List Record → List Char
  | [] => []
  | [r] => renderRecord r
  | r :: rest => renderRecord r ++ ',' :: ' ' :: renderItems rest

/-- The exact text `json.dump(users, f)` writes for a list of record
dictionaries whose strings need no escaping. -/
def jsonDumps (users : List Record) : String :=
  String.mk ('[' :: renderItems users ++ [']'])

/-- Source lines 57 to 61: `export_json(users)` writes the serialized
text to the destination file; the model returns the written content. -/
def export_json (users : List Record) : String :=
  jsonDumps users

/-- Skip blanks between JSON tokens. -/
def skipSpaces (cs : List Char) : List Char :=
  cs.dropWhile (fun c => c = ' ')

/-- Parse one `"key": value` pair. -/
def parsePair (cs : List Char) : Option ((String × Field) × List Char) :=
  match parseStr cs with
  | none => none
  | some (k, cs1) =>
      match skipSpaces cs1 with
      | [] => none
      | c :: cs2 =>
          if c = ':' then
            match parseField (skipSpaces cs2) with
            | some (v, cs3) => some ((k, v), cs3)
            | none => none
          else none

/-- Parse a nonempty `", "`-separated pair list followed by the closing
brace, with a recursion budget. -/
def parsePairs : Nat → List Char → Option (Record × List Char)
  | 0, _ => none
  | fuel + 1, cs =>
      match parsePair cs with
      | none => none
      | some (kv, cs1) =>
          match skipSpaces cs1 with
          | [] => none
          | c :: cs2 =>
              if c = ',' then
                match parsePairs fuel (skipSpaces cs2) with
                | some (kvs, cs3) => some (kv :: kvs, cs3)
                | none => none
              else if c = '}' then some ([kv], cs2)
              else none

/-- Parse one JSON object of the exported fragment. -/
def parseRecord (fuel : Nat) (cs : List Char) : Option (Record × List Char) :=
  match cs with
  | [] => none
  | c :: cs1 =>
      if c = '{' then
        match skipSpaces cs1 with
        | [] => none
        | d :: cs2 => if d = '}' then some ([], cs2) else parsePairs fuel (d :: cs2)
      else none

/-- Parse a nonempty `", "`-separated object list followed by the
closing bracket. -/
def parseItems : Nat → List Char → Option (List Record × List Char)
  | 0, _ => none
  | fuel + 1, cs =>
      match parseRecord fuel cs with
      | none => none
      | some (r, cs1) =>
          match skipSpaces cs1 with
          | [] => none
          | c :: cs2 =>
              if c = ',' then
                match parseItems fuel (skipSpaces cs2) with
                | some (rs, cs3) => some (r :: rs, cs3)
                | none => none
              else if c = ']' then some ([r], cs2)
              else none

/-- Reading the destination back with `json.load`, for the exported
fragment: a top-level array of objects with string keys and string or
integer values. -/
def jsonLoads (s : String) : Option (List Record) :=
  match skipSpaces s.data with
  | [] => none
  | c :: cs1 =>
      if c = '[' then
        match skipSpaces cs1 with
        | [] => none
        | d :: cs2 =>
            if d = ']' then (if skipSpaces cs2 = [] then some [] else none)
            else
              match parseItems (s.data.length + 1) (d :: cs2) with
              | some (rs, cs3) => if skipSpaces cs3 = [] then some rs else none
              | none => none
      else none

/-- Strings that `json.dump` writes verbatim (no escaping): printable
ASCII without the quote and backslash characters. -/
def wfStr (s : String) : Bool :=
  s.data.all (fun c => c ≠ '"' ∧ c ≠ '\\' ∧ 32 ≤ c.toNat ∧ c.toNat ≤ 126)

/-- Well-formed record value: integers freely, strings as `wfStr`. -/
def wfField : Field → Bool
  | .int _ => true
  | .str s => wfStr s

/-- Well-formed record: every key and value well formed. -/
def wfRecord (r : Record) : Bool :=
  r.all (fun kv => wfStr kv.1 ∧ wfField kv.2)

/-- Well-formed record list. -/
def wfUsers (users : List Record) : Bool :=
  users.all wfRecord

/-- Recursion budget sufficient for `parseItems`: one unit per record
plus one per pair. -/
def totalCount : List Record → Nat
  | [] => 0
  | r :: rest => r.length + 1 + totalCount rest

/-- The next character, if any, is not a digit (so a maximal-munch
integer parse stops exactly there). -/
def headNotDigit : List Char → Prop
  | [] => True
  | c :: _ => isDigitChar c = false

/-- The first sample CSV row as the dictionary `csv.DictReader` yields. -/
def aliceRow : Record :=
  [("name", .str "Alice Johnson"), ("age", .str "25"),
   ("purchases", .str "15"), ("visits", .str "30")]

/-- The row of the invalid-data test: a non-numeric `age` field. -/
def johnRow : Record :=
  [("name", .str "John Doe"), ("age", .str "invalid_age"),
   ("purchases", .str "10"), ("visits", .str "20")]

/-- A processed record as the report test builds it: `name` and `score`
only, no `purchases` or `visits` entries. -/
def aliceScoreRow : Record :=
  [("name", .str "Alice"), ("score", .int 300)]

/-- The processed users of the export test. -/
def aliceBob : List Record :=
  [[("name", .str "Alice"), ("age", .int 25), ("score", .int 300)],
   [("name", .str "Bob"), ("age", .int 30), ("score", .int 200)]]

/-! ## Theorems -/

/-- C1: for every purchases value `p` and visits value `v` convertible
to integers, `calculate_score` returns exactly
`p * purchase_multiplier + v * visit_multiplier` with the default
multipliers `10` for purchases and `5` for visits (hard-coded in the
source); in particular `p = 15, v = 30` gives `300` and `p = 0, v = 0`
gives `0`. -/
theorem C1_score_formula :
    (∀ (p v : Field) (pi vi : Int), pyInt p = .ok pi → pyInt v = .ok vi →
      calculate_score p v = .ok (pi * 10 + vi * 5)) ∧
    calculate_score (.int 15) (.int 30) = .ok 300 ∧
    calculate_score (.int 0) (.int 0) = .ok 0 := by
  refine ⟨?_, rfl, rfl⟩
  intro p v pi vi hp hv
  simp only [calculate_score, hp, hv]

/-- Witness for C1 at the string inputs `"15"` and `"30"`. -/
theorem C1_score_formula_witness :
    pyInt (Field.str "15") = .ok 15 ∧ pyInt (Field.str "30") = .ok 30 ∧
    calculate_score (Field.str "15") (Field.str "30") = .ok 300 := by
  refine ⟨rfl, rfl, ?_⟩
  have h := C1_score_formula.1 (Field.str "15") (Field.str "30") 15 30 rfl rfl
  norm_num at h
  exact h

/-- C3 (code bug, evaluation at the failing input): two successive calls
of `process_users` with the same row list and same filter content do not
return the same result — the module-level list `data` carries the first
call rows into the second, which therefore returns the row twice — and
the passed-in filter dictionary is mutated (a `count` entry is added,
then incremented). -/
theorem C3_shared_state_eval :
    process_users ⟨[]⟩ [aliceRow] [[]] =
      (.ok [aliceRow], ⟨[aliceRow]⟩, [[("count", Field.int 1)]]) ∧
    process_users ⟨[aliceRow]⟩ [aliceRow] [[("count", Field.int 1)]] =
      (.ok [aliceRow, aliceRow], ⟨[aliceRow, aliceRow]⟩, [[("count", Field.int 2)]]) := by
  exact ⟨rfl, rfl⟩

/-- C5 (code bug, evaluation at the failing input): processing the row
with the non-numeric age `"invalid_age"` raises the bare Python
`ValueError` of the `int()` builtin, not a `UserDataError` with reason
`Invalid user data`; the two exception kinds are distinct constructors. -/
theorem C5_conversion_error_kind :
    processLoop [johnRow] = .error (.valueError "invalid_age") ∧
    (∀ reason : String,
      PyError.valueError "invalid_age" ≠ PyError.userDataError reason) := by
  exact ⟨rfl, fun reason h => PyError.noConfusion h⟩

/-- C6 (code bug, evaluation at the failing input): generating the
report for the record `{name: Alice, score: 300}` raises
`KeyError("purchases")` instead of writing `User: Alice, Score: 300`,
because the source recomputes every score from the `purchases` and
`visits` entries and never reads the `score` entry. -/
theorem C6_report_ignores_score_field :
    generate_report [aliceScoreRow] = .error (.keyError "purchases") := by
  rfl

/-- C7 (code bug, evaluation at the failing input): for the empty record
list the report still contains the average line (`Average score: 0`,
from the integer initialisation of `avg`), while for a nonempty list the
average is written as the raw Python float `sum / total`, not a
two-decimal rendering; the claim says the line is absent when the count
is zero. -/
theorem C7_average_line_always_written :
    generate_report ([] : List Record) =
      .ok [ReportChunk.totalLine 0, ReportChunk.avgInt 0] ∧
    generate_report [aliceRow] =
      .ok [ReportChunk.userLine "Alice Johnson" 300,
           ReportChunk.totalLine 1, ReportChunk.avgFloat 300 1] := by
  exact ⟨rfl, rfl⟩

/-- Evaluation of one spec pipeline step when all three numeric fields
convert. -/
theorem processRecordSpec_eval (policy : ScoringPolicy) (r : RawRecord) (age p v : Int)
    (ha : pyIntOfString r.age = some age) (hp : pyIntOfString r.purchases = some p)
    (hv : pyIntOfString r.visits = some v) :
    processRecordSpec policy r =
      if age > policy.min_age ∧
          p * policy.purchase_multiplier + v * policy.visit_multiplier >
            policy.score_threshold then
        .ok (some ⟨r.name, age, p, v,
          p * policy.purchase_multiplier + v * policy.visit_multiplier⟩)
      else .ok none := by
  simp only [processRecordSpec, ha, hp, hv]

/-- A record the spec pipeline keeps satisfies both strict threshold
comparisons. -/
theorem processRecordSpec_kept {policy : ScoringPolicy} {r : RawRecord}
    {pr : ProcessedRecord} (h : processRecordSpec policy r = .ok (some pr)) :
    pr.age > policy.min_age ∧ pr.score > policy.score_threshold := by
  cases ha : pyIntOfString r.age with
  | none => unfold processRecordSpec at h; rw [ha] at h; cases h
  | some age =>
      cases hp : pyIntOfString r.purchases with
      | none => unfold processRecordSpec at h; rw [ha, hp] at h; cases h
      | some p =>
          cases hv : pyIntOfString r.visits with
          | none => unfold processRecordSpec at h; rw [ha, hp, hv] at h; cases h
          | some v =>
              rw [processRecordSpec_eval policy r age p v ha hp hv] at h
              by_cases hc : age > policy.min_age ∧
                  p * policy.purchase_multiplier + v * policy.visit_multiplier >
                    policy.score_threshold
              · rw [if_pos hc] at h
                cases h
                exact hc
              · rw [if_neg hc] at h
                cases h

/-- Membership characterisation for the spec pipeline: the output of a
successful run holds exactly the processed forms of the raw records the
inclusion step keeps. -/
theorem mem_process (raws : List RawRecord) (policy : ScoringPolicy) :
    ∀ out, process raws policy = .ok out →
      ∀ pr : ProcessedRecord,
        (pr ∈ out ↔ ∃ r, r ∈ raws ∧ processRecordSpec policy r = .ok (some pr)) := by
  induction raws with
  | nil =>
      intro out h pr
      simp only [process] at h
      cases h
      simp
  | cons r rest ih =>
      intro out h pr
      simp only [process] at h
      cases hk : processRecordSpec policy r with
      | error e => rw [hk] at h; cases h
      | ok kept =>
          rw [hk] at h
          cases ho : process rest policy with
          | error e => rw [ho] at h; cases h
          | ok out' =>
              rw [ho] at h
              have ihh := ih out' ho pr
              cases kept with
              | some x =>
                  cases h
                  constructor
                  · intro hin
                    rcases List.mem_cons.mp hin with heq | hin'
                    · exact ⟨r, List.mem_cons_self r rest, heq ▸ hk⟩
                    · rcases ihh.mp hin' with ⟨r', hr', hs'⟩
                      exact ⟨r', List.mem_cons_of_mem r hr', hs'⟩
                  · rintro ⟨r', hr', hs'⟩
                    rcases List.mem_cons.mp hr' with heq | hin'
                    · subst heq
                      rw [hk] at hs'
                      cases hs'
                      exact List.mem_cons_self _ _
                    · exact List.mem_cons_of_mem _ (ihh.mpr ⟨r', hin', hs'⟩)
              | none =>
                  cases h
                  constructor
                  · intro hin
                    rcases ihh.mp hin with ⟨r', hr', hs'⟩
                    exact ⟨r', List.mem_cons_of_mem r hr', hs'⟩
                  · rintro ⟨r', hr', hs'⟩
                    rcases List.mem_cons.mp hr' with heq | hin'
                    · subst heq
                      rw [hk] at hs'
                      cases hs'
                    · exact ihh.mpr ⟨r', hin', hs'⟩

/-- C2 (spec-modelled pipeline): a record is kept iff its age strictly
exceeds `min_age` and its computed score strictly exceeds
`score_threshold`: every output record satisfies both strict
comparisons, every convertible input record satisfying both appears in
the output, and the legacy loop body of `process_users` realises
exactly this predicate at the default thresholds `18` and `100`. -/
theorem C2_inclusion_strict :
    (∀ raws policy out, process raws policy = .ok out →
      ∀ pr ∈ out, pr.age > policy.min_age ∧ pr.score > policy.score_threshold) ∧
    (∀ raws policy out, process raws policy = .ok out →
      ∀ r ∈ raws, ∀ age p v : Int, pyIntOfString r.age = some age →
        pyIntOfString r.purchases = some p → pyIntOfString r.visits = some v →
        age > policy.min_age →
        p * policy.purchase_multiplier + v * policy.visit_multiplier >
          policy.score_threshold →
        (⟨r.name, age, p, v,
          p * policy.purchase_multiplier + v * policy.visit_multiplier⟩ :
            ProcessedRecord) ∈ out) ∧
    (∀ (d : Record) (fa fp fv : Field) (age p v : Int),
      d.get "age" = some fa → pyInt fa = .ok age →
      d.get "purchases" = some fp → pyInt fp = .ok p →
      d.get "visits" = some fv → pyInt fv = .ok v →
      (processRow d = .ok (some d) ↔ age > 18 ∧ p * 10 + v * 5 > 100)) := by
  refine ⟨?_, ?_, ?_⟩
  · intro raws policy out h pr hin
    rcases (mem_process raws policy out h pr).mp hin with ⟨r, _, hs⟩
    exact processRecordSpec_kept hs
  · intro raws policy out h r hr age p v ha hp hv hage hscore
    refine (mem_process raws policy out h _).mpr ⟨r, hr, ?_⟩
    rw [processRecordSpec_eval policy r age p v ha hp hv, if_pos ⟨hage, hscore⟩]
  · intro d fa fp fv age p v hga hia hgp hip hgv hiv
    simp only [processRow, recordGet, hga, hgp, hgv, hia, hip, hiv,
      calculate_score, THRESHOLD]
    constructor
    · intro h
      split at h
      · rename_i hage
        split at h
        · rename_i hscore
          exact ⟨hage, hscore⟩
        · cases h
      · cases h
    · rintro ⟨hage, hscore⟩
      rw [if_pos hage, if_pos hscore]

/-- Witness for C2: the default policy keeps Alice Johnson (age 25,
score 300), and the legacy loop keeps the same row. -/
theorem C2_inclusion_strict_witness :
    ((⟨"Alice Johnson", 25, 15, 30, 300⟩ : ProcessedRecord).age > defaultPolicy.min_age ∧
     (⟨"Alice Johnson", 25, 15, 30, 300⟩ : ProcessedRecord).score >
       defaultPolicy.score_threshold) ∧
    (processRow aliceRow = .ok (some aliceRow) ↔
      (25 : Int) > 18 ∧ (15 : Int) * 10 + 30 * 5 > 100) :=
  ⟨C2_inclusion_strict.1 [⟨"Alice Johnson", "25", "15", "30"⟩] defaultPolicy
      [⟨"Alice Johnson", 25, 15, 30, 300⟩] rfl _ (List.mem_singleton.mpr rfl),
   C2_inclusion_strict.2.2 aliceRow (.str "25") (.str "15") (.str "30")
      25 15 30 rfl rfl rfl rfl rfl rfl⟩

/-- Inversion of a successful three-field conversion. -/
theorem convRecord_some {r : RawRecord} {age p v : Int}
    (h : convRecord r = some (age, p, v)) :
    pyIntOfString r.age = some age ∧ pyIntOfString r.purchases = some p ∧
      pyIntOfString r.visits = some v := by
  unfold convRecord at h
  cases h1 : pyIntOfString r.age with
  | none => rw [h1] at h; cases h
  | some a =>
      rw [h1] at h
      cases h2 : pyIntOfString r.purchases with
      | none => rw [h2] at h; cases h
      | some b =>
          rw [h2] at h
          cases h3 : pyIntOfString r.visits with
          | none => rw [h3] at h; cases h
          | some c =>
              rw [h3] at h
              cases h
              exact ⟨rfl, rfl, rfl⟩

/-- Evaluation of the decidable inclusion predicate on a convertible
record. -/
theorem keptB_eq {r : RawRecord} {age p v : Int} (policy : ScoringPolicy)
    (hc : convRecord r = some (age, p, v)) :
    keptB r policy =
      decide (age > policy.min_age ∧
        p * policy.purchase_multiplier + v * policy.visit_multiplier >
          policy.score_threshold) := by
  unfold keptB
  rw [hc]

/-- C8: on an input whose records all convert, the spec pipeline
succeeds, and when no record satisfies the inclusion predicate the
result is the empty list; in particular the empty input and the sample
data under the 10000 score threshold both yield `ok []`, never an
error. -/
theorem C8_no_matches_empty :
    (∀ policy, process [] policy = .ok []) ∧
    (∀ raws policy, (∀ r ∈ raws, (convRecord r).isSome) →
      ∃ out, process raws policy = .ok out ∧
        ((∀ r ∈ raws, keptB r policy = false) → out = [])) ∧
    process sampleRaws highPolicy = .ok [] := by
  refine ⟨fun policy => rfl, ?_, by rfl⟩
  intro raws policy hconv
  induction raws with
  | nil => exact ⟨[], rfl, fun _ => rfl⟩
  | cons r rest ih =>
      obtain ⟨⟨age, p, v⟩, hc⟩ :=
        Option.isSome_iff_exists.mp (hconv r (List.mem_cons_self r rest))
      obtain ⟨ha, hp, hv⟩ := convRecord_some hc
      obtain ⟨out', hout', hempty'⟩ :=
        ih (fun x hx => hconv x (List.mem_cons_of_mem r hx))
      by_cases hcnd : age > policy.min_age ∧
          p * policy.purchase_multiplier + v * policy.visit_multiplier >
            policy.score_threshold
      · refine ⟨⟨r.name, age, p, v,
            p * policy.purchase_multiplier + v * policy.visit_multiplier⟩ :: out', ?_, ?_⟩
        · simp only [process]
          rw [processRecordSpec_eval policy r age p v ha hp hv, if_pos hcnd, hout']
        · intro hall
          have hfalse := hall r (List.mem_cons_self r rest)
          rw [keptB_eq policy hc] at hfalse
          simp [hcnd] at hfalse
      · refine ⟨out', ?_, ?_⟩
        · simp only [process]
          rw [processRecordSpec_eval policy r age p v ha hp hv, if_neg hcnd, hout']
        · intro hall
          exact hempty' (fun x hx => hall x (List.mem_cons_of_mem r hx))

/-- Witness for C8: Bob Smith (age 17) converts but fails the age
filter, and the pipeline returns the empty list. -/
theorem C8_no_matches_empty_witness :
    process [(⟨"Bob Smith", "17", "5", "10"⟩ : RawRecord)] defaultPolicy = .ok [] := by
  obtain ⟨out, h1, h2⟩ := C8_no_matches_empty.2.1
    [(⟨"Bob Smith", "17", "5", "10"⟩ : RawRecord)] defaultPolicy (by decide)
  rw [h2 (by decide)] at h1
  exact h1

/-- C10: the refactoring-skeleton entry points never return a value:
`ScoringConfig` construction, `read_users_from_csv` and
`calculate_user_score` unconditionally raise `NotImplementedError` on
every argument. -/
theorem C10_skeletons_raise :
    (∀ pw vw : Int,
      ScoringConfig_mk pw vw =
        .error (.notImplementedError "ScoringConfig.__init__ called")) ∧
    (∀ fp : String,
      read_users_from_csv fp =
        .error (.notImplementedError "read_users_from_csv called")) ∧
    (∀ (p v : Field) (cfg : Option Unit),
      calculate_user_score p v cfg =
        .error (.notImplementedError "calculate_user_score called")) :=
  ⟨fun _ _ => rfl, fun _ => rfl, fun _ _ _ => rfl⟩

/-- C4 (spec-modelled reader): `read_records` fails with reason
`not found` on a missing source, `empty` on an empty source or a header
with zero data rows, `Missing required fields` when a header with data
rows lacks a required column, and otherwise returns one raw record per
data row. -/
theorem C4_reader_errors :
    read_records .missing = .error (.userDataError "not found") ∧
    read_records (.file []) = .error (.userDataError "empty") ∧
    (∀ header, read_records (.file [header]) = .error (.userDataError "empty")) ∧
    (∀ header rows, rows ≠ [] →
      ¬ REQUIRED_FIELDS.all (fun f => header.contains f) = true →
      read_records (.file (header :: rows)) =
        .error (.userDataError "Missing required fields")) ∧
    (∀ header rows, rows ≠ [] →
      REQUIRED_FIELDS.all (fun f => header.contains f) = true →
      ∃ out, read_records (.file (header :: rows)) = .ok out ∧
        out.length = rows.length) := by
  refine ⟨rfl, rfl, fun header => rfl, ?_, ?_⟩
  · intro header rows hne hmiss
    simp only [read_records]
    rw [if_neg hne, if_neg hmiss]
  · intro header rows hne hall
    refine ⟨rows.map (fun row => (header.zip row).map (fun kv => (kv.1, Field.str kv.2))),
      ?_, by simp⟩
    simp only [read_records]
    rw [if_neg hne, if_pos hall]

/-- Witness for C4 at the missing-columns test file and at a complete
one-row file. -/
theorem C4_reader_errors_witness :
    read_records (.file [["name", "age"], ["John Doe", "25"]]) =
      .error (.userDataError "Missing required fields") ∧
    ∃ out,
      read_records (.file [["name", "age", "purchases", "visits"],
        ["Alice", "25", "15", "30"]]) = .ok out ∧ out.length = 1 :=
  ⟨C4_reader_errors.2.2.2.1 ["name", "age"] [["John Doe", "25"]]
      (by decide) (by decide),
   C4_reader_errors.2.2.2.2 ["name", "age", "purchases", "visits"]
      [["Alice", "25", "15", "30"]] (by decide) (by decide)⟩

/-! ### Round-trip lemmas for the JSON export -/

/-- Code of a decimal digit character. -/
theorem digitChar_val {n : Nat} (h : n < 10) : (digitChar n).toNat = 48 + n := by
  interval_cases n <;> rfl

/-- A decimal digit character passes the digit test. -/
theorem isDigitChar_digitChar {n : Nat} (h : n < 10) :
    isDigitChar (digitChar n) = true := by
  simp only [isDigitChar, digitChar_val h, decide_eq_true_eq]
  omega

/-- A character failing the digit test is not a digit character. -/
theorem ne_of_isDigitChar {c d : Char} (hc : isDigitChar c = true)
    (hd : isDigitChar d = false) : c ≠ d := by
  intro h
  rw [h, hd] at hc
  cases hc

/-- The digit string of a natural number is nonempty. -/
theorem writeNat_ne_nil (n : Nat) : writeNat n ≠ [] := by
  rw [writeNat]
  split <;> simp

/-- Every character written for a natural number is a digit. -/
theorem writeNat_digits (n : Nat) : ∀ c ∈ writeNat n, isDigitChar c = true := by
  induction n using Nat.strong_induction_on with
  | _ n ih =>
      rw [writeNat]
      split
      · rename_i h
        intro c hc
        rw [List.mem_singleton.mp hc]
        exact isDigitChar_digitChar h
      · rename_i h
        intro c hc
        rcases List.mem_append.mp hc with hl | hr
        · exact ih (n / 10) (Nat.div_lt_self (by omega) (by omega)) c hl
        · rw [List.mem_singleton.mp hr]
          exact isDigitChar_digitChar (Nat.mod_lt n (by omega))

/-- Folding the digit-accumulation step over the written digits
recovers the number. -/
theorem foldl_writeNat (n : Nat) : ∀ acc : Nat,
    (writeNat n).foldl (fun a c => a * 10 + (c.toNat - 48)) acc =
      acc * 10 ^ (writeNat n).length + n := by
  induction n using Nat.strong_induction_on with
  | _ n ih =>
      intro acc
      rw [writeNat]
      split
      · rename_i h
        simp only [List.foldl_cons, List.foldl_nil, List.length_singleton,
          pow_one, digitChar_val h]
        omega
      · rename_i h
        rw [List.foldl_append, List.length_append,
          ih (n / 10) (Nat.div_lt_self (by omega) (by omega)) acc]
        simp only [List.foldl_cons, List.foldl_nil, List.length_singleton,
          digitChar_val (Nat.mod_lt n (by omega))]
        rw [pow_succ, Nat.add_mul, ← Nat.mul_assoc]
        omega

/-- A maximal digit parse stops at a non-digit boundary. -/
theorem readDigits_stop {rest : List Char} (h : headNotDigit rest) (acc : Nat) :
    readDigits rest acc = (acc, rest) := by
  cases rest with
  | nil => rfl
  | cons c cs =>
      simp only [headNotDigit] at h
      simp [readDigits, h]

/-- Reading an all-digit prefix accumulates its value and leaves the
boundary intact. -/
theorem readDigits_digits : ∀ (ds rest : List Char) (acc : Nat),
    (∀ c ∈ ds, isDigitChar c = true) → headNotDigit rest →
    readDigits (ds ++ rest) acc =
      (ds.foldl (fun a c => a * 10 + (c.toNat - 48)) acc, rest) := by
  intro ds
  induction ds with
  | nil => intro rest acc _ hrest; exact readDigits_stop hrest acc
  | cons d ds ih =>
      intro rest acc hds hrest
      have hd := hds d (List.mem_cons_self d ds)
      simp only [List.cons_append, readDigits, hd, if_true, List.foldl_cons]
      exact ih rest _ (fun c hc => hds c (List.mem_cons_of_mem d hc)) hrest

/-- Parsing the written digits of `n` yields `n` and the untouched
boundary. -/
theorem parseNat_writeNat (n : Nat) {rest : List Char} (hrest : headNotDigit rest) :
    parseNat (writeNat n ++ rest) = some (n, rest) := by
  cases hw : writeNat n with
  | nil => exact absurd hw (writeNat_ne_nil n)
  | cons hd tl =>
      have hhd : isDigitChar hd = true :=
        writeNat_digits n hd (hw ▸ List.mem_cons_self hd tl)
      have htl : ∀ c ∈ tl, isDigitChar c = true :=
        fun c hc => writeNat_digits n c (hw ▸ List.mem_cons_of_mem hd hc)
      simp only [List.cons_append, parseNat, hhd, if_true]
      rw [readDigits_digits tl rest _ htl hrest]
      have hfold := foldl_writeNat n 0
      rw [hw] at hfold
      simp only [List.foldl_cons, Nat.zero_mul, Nat.zero_add] at hfold
      rw [hfold]

/-- Parsing the written form of an integer yields the integer. -/
theorem parseInt_writeInt (n : Int) {rest : List Char} (hrest : headNotDigit rest) :
    parseInt (writeInt n ++ rest) = some (n, rest) := by
  by_cases hn : n < 0
  · simp only [writeInt, if_pos hn, List.cons_append, parseInt, if_pos rfl]
    rw [parseNat_writeNat (-n).toNat hrest]
    have h1 : ((-n).toNat : Int) = -n := Int.toNat_of_nonneg (by omega)
    simp [h1]
  · have hw := writeNat_ne_nil n.toNat
    cases hw2 : writeNat n.toNat with
    | nil => exact absurd hw2 hw
    | cons hd tl =>
        have hhd : isDigitChar hd = true :=
          writeNat_digits n.toNat hd (hw2 ▸ List.mem_cons_self hd tl)
        have hne : ¬ hd = '-' := by
          intro h
          rw [h] at hhd
          cases hhd
        simp only [writeInt, if_neg hn, hw2, List.cons_append, parseInt, if_neg hne]
        rw [← List.cons_append, ← hw2, parseNat_writeNat n.toNat hrest]
        have h1 : (n.toNat : Int) = n := Int.toNat_of_nonneg (by omega)
        simp [h1]

/-- String content is consumed verbatim up to the closing quote. -/
theorem takeStr_append : ∀ (ds rest : List Char), '"' ∉ ds →
    takeStr (ds ++ '"' :: rest) = some (ds, rest) := by
  intro ds
  induction ds with
  | nil =>
      intro rest _
      simp [takeStr]
  | cons d ds ih =>
      intro rest hmem
      have hd : ¬ d = '"' := fun h => hmem (h ▸ List.mem_cons_self d ds)
      simp [List.cons_append, takeStr, hd,
        ih rest (fun h => hmem (List.mem_cons_of_mem d h))]

/-- Parsing the rendered string literal yields the string back. -/
theorem parseStr_cons (ds rest : List Char) (hmem : '"' ∉ ds) :
    parseStr ('"' :: (ds ++ '"' :: rest)) = some (String.mk ds, rest) := by
  simp [parseStr, takeStr_append ds rest hmem]

/-- The written form of an integer starts with a minus sign or a
digit. -/
theorem writeInt_head (n : Int) :
    ∃ hd tl, writeInt n = hd :: tl ∧ (hd = '-' ∨ isDigitChar hd = true) := by
  by_cases hn : n < 0
  · exact ⟨'-', writeNat (-n).toNat, by simp [writeInt, hn], Or.inl rfl⟩
  · cases hw : writeNat n.toNat with
    | nil => exact absurd hw (writeNat_ne_nil n.toNat)
    | cons hd tl =>
        refine ⟨hd, tl, by simp [writeInt, hn, hw], Or.inr ?_⟩
        exact writeNat_digits n.toNat hd (hw ▸ List.mem_cons_self hd tl)

/-- Skipping blanks stops at a non-blank head. -/
theorem skipSpaces_cons {c : Char} (cs : List Char) (h : ¬ c = ' ') :
    skipSpaces (c :: cs) = c :: cs := by
  simp [skipSpaces, List.dropWhile_cons, h]

/-- Skipping blanks consumes a blank head. -/
theorem skipSpaces_space (cs : List Char) : skipSpaces (' ' :: cs) = skipSpaces cs := by
  simp [skipSpaces, List.dropWhile_cons]

/-- A well-formed string contains no quote. -/
theorem wfStr_no_quote {s : String} (h : wfStr s = true) : '"' ∉ s.data := by
  intro hmem
  simp only [wfStr, List.all_eq_true, decide_eq_true_eq] at h
  exact (h '"' hmem).1 rfl

/-- The rendered form of a well-formed field starts with a character
that is not a blank, not a closing brace and not a closing bracket. -/
theorem renderField_head (v : Field) :
    ∃ hd tl, renderField v = hd :: tl ∧
      (hd = '"' ∨ hd = '-' ∨ isDigitChar hd = true) := by
  cases v with
  | str s => exact ⟨'"', s.data ++ ['"'], rfl, Or.inl rfl⟩
  | int n =>
      rcases writeInt_head n with ⟨hd, tl, hw, hh⟩
      exact ⟨hd, tl, hw, Or.inr hh⟩

/-- Parsing the rendered form of a well-formed field at a non-digit
boundary yields the field back. -/
theorem parseField_render {v : Field} {rest : List Char} (hwf : wfField v = true)
    (hrest : headNotDigit rest) :
    parseField (renderField v ++ rest) = some (v, rest) := by
  cases v with
  | str s =>
      have hmem : '"' ∉ s.data := wfStr_no_quote hwf
      simp [renderField, parseField, parseStr_cons s.data rest hmem]
  | int n =>
      rcases writeInt_head n with ⟨hd, tl, hw, hh⟩
      have hne : ¬ hd = '"' := by
        rcases hh with h1 | h1
        · rw [h1]; decide
        · exact ne_of_isDigitChar h1 (by decide)
      simp only [renderField]
      rw [hw]
      simp only [List.cons_append, parseField, if_neg hne]
      rw [← List.cons_append, ← hw, parseInt_writeInt n hrest]
      rfl

/-- Skipping blanks leaves the rendered form of a well-formed field
untouched. -/
theorem skipSpaces_renderField (v : Field) (rest : List Char) :
    skipSpaces (renderField v ++ rest) = renderField v ++ rest := by
  rcases renderField_head v with ⟨hd, tl, hw, hh⟩
  rw [hw, List.cons_append]
  refine skipSpaces_cons _ ?_
  rcases hh with h1 | h1 | h1
  · rw [h1]; decide
  · rw [h1]; decide
  · exact ne_of_isDigitChar h1 (by decide)

/-- A cons list whose head fails the digit test is a non-digit
boundary. -/
theorem headNotDigit_cons {c : Char} (h : isDigitChar c = false)
    (rest : List Char) : headNotDigit (c :: rest) := h

/-- Parsing a rendered pair at a non-digit boundary yields the pair. -/
theorem parsePair_render {k : String} {v : Field} {rest : List Char}
    (hk : wfStr k = true) (hv : wfField v = true) (hrest : headNotDigit rest) :
    parsePair (renderPair (k, v) ++ rest) = some ((k, v), rest) := by
  have hshape : renderPair (k, v) ++ rest =
      '"' :: (k.data ++ '"' :: (':' :: ' ' :: (renderField v ++ rest))) := by
    simp [renderPair]
  rw [hshape]
  have h1 := parseStr_cons k.data (':' :: ' ' :: (renderField v ++ rest))
    (wfStr_no_quote hk)
  have h2 : skipSpaces (':' :: ' ' :: (renderField v ++ rest)) =
      ':' :: ' ' :: (renderField v ++ rest) := skipSpaces_cons _ (by decide)
  have h3 : skipSpaces (' ' :: (renderField v ++ rest)) = renderField v ++ rest := by
    rw [skipSpaces_space]
    exact skipSpaces_renderField v rest
  have h4 := parseField_render hv hrest
  have h5 : String.mk k.data = k := rfl
  simp [parsePair, h1, h2, h3, h4, h5]

/-- The rendered pair list of a nonempty record starts with a quote. -/
theorem renderPairs_head (kv : String × Field) (more : Record) :
    ∃ tl, renderPairs (kv :: more) = '"' :: tl := by
  cases more with
  | nil => exact ⟨_, rfl⟩
  | cons kv2 tl2 =>
      cases kv with
      | mk k v => exact ⟨_, rfl⟩

/-- Parsing the rendered pairs of a nonempty well-formed record, up to
the closing brace, yields the record. -/
theorem parsePairs_render : ∀ (r : Record) (fuel : Nat) (rest : List Char),
    r ≠ [] → wfRecord r = true → r.length ≤ fuel →
    parsePairs fuel (renderPairs r ++ '}' :: rest) = some (r, rest) := by
  intro r
  induction r with
  | nil => intro fuel rest hne; exact absurd rfl hne
  | cons kv more ih =>
      intro fuel rest _ hwf hfuel
      cases kv with
      | mk k v =>
          have hkv : wfStr k = true ∧ wfField v = true := by
            have := (List.all_eq_true.mp hwf) (k, v) (List.mem_cons_self _ _)
            simpa using this
          cases fuel with
          | zero => simp at hfuel
          | succ f =>
              cases more with
              | nil =>
                  have hpp := parsePair_render hkv.1 hkv.2
                    (@headNotDigit_cons '}' (by decide) rest)
                  have hsk : skipSpaces ('}' :: rest) = '}' :: rest :=
                    skipSpaces_cons _ (by decide)
                  have hne1 : ¬ ('}' : Char) = ',' := by decide
                  simp [renderPairs, parsePairs, hpp, hsk, hne1]
              | cons kv2 tl2 =>
                  have hshape : renderPairs ((k, v) :: kv2 :: tl2) ++ '}' :: rest =
                      renderPair (k, v) ++
                        (',' :: ' ' :: (renderPairs (kv2 :: tl2) ++ '}' :: rest)) := by
                    simp [renderPairs]
                  have hwf2 : wfRecord (kv2 :: tl2) = true := by
                    simp only [wfRecord, List.all_cons, Bool.and_eq_true] at hwf ⊢
                    exact hwf.2
                  have hfuel2 : (kv2 :: tl2).length ≤ f := by
                    simp only [List.length_cons] at hfuel ⊢
                    omega
                  have hpp := parsePair_render hkv.1 hkv.2
                    (@headNotDigit_cons ',' (by decide)
                      (' ' :: (renderPairs (kv2 :: tl2) ++ '}' :: rest)))
                  have hsk1 : skipSpaces
                        (',' :: ' ' :: (renderPairs (kv2 :: tl2) ++ '}' :: rest)) =
                      ',' :: ' ' :: (renderPairs (kv2 :: tl2) ++ '}' :: rest) :=
                    skipSpaces_cons _ (by decide)
                  have hsk2 : skipSpaces
                        (' ' :: (renderPairs (kv2 :: tl2) ++ '}' :: rest)) =
                      renderPairs (kv2 :: tl2) ++ '}' :: rest := by
                    rw [skipSpaces_space]
                    rcases renderPairs_head kv2 tl2 with ⟨tl3, hh⟩
                    rw [hh, List.cons_append]
                    exact skipSpaces_cons _ (by decide)
                  have hih := ih f rest (by simp) hwf2 hfuel2
                  rw [hshape]
                  simp [parsePairs, hpp, hsk1, hsk2, hih]

/-- Parsing a rendered well-formed record yields the record. -/
theorem parseRecord_render : ∀ (r : Record) (fuel : Nat) (rest : List Char),
    wfRecord r = true → r.length ≤ fuel →
    parseRecord fuel (renderRecord r ++ rest) = some (r, rest) := by
  intro r fuel rest hwf hfuel
  have hshape : renderRecord r ++ rest = '{' :: (renderPairs r ++ '}' :: rest) := by
    simp [renderRecord]
  rw [hshape]
  cases r with
  | nil =>
      have hsk : skipSpaces ('}' :: rest) = '}' :: rest :=
        skipSpaces_cons _ (by decide)
      simp [renderPairs, parseRecord, hsk]
  | cons kv more =>
      rcases renderPairs_head kv more with ⟨tl3, hh⟩
      have hpp := parsePairs_render (kv :: more) fuel rest (by simp) hwf hfuel
      rw [hh, List.cons_append] at hpp ⊢
      have hsk : skipSpaces ('"' :: (tl3 ++ '}' :: rest)) =
          '"' :: (tl3 ++ '}' :: rest) := skipSpaces_cons _ (by decide)
      have hq : ¬ ('"' : Char) = '}' := by decide
      simp [parseRecord, hsk, hq, hpp]

/-- The rendered item list of a nonempty user list starts with an
opening brace. -/
theorem renderItems_head (r : Record) (more : List Record) :
    ∃ tl, renderItems (r :: more) = '{' :: tl := by
  cases more with
  | nil => exact ⟨_, rfl⟩
  | cons r2 tl2 => exact ⟨_, rfl⟩

/-- Skipping blanks leaves a rendered record untouched. -/
theorem skipSpaces_renderRecord (r : Record) (rest : List Char) :
    skipSpaces (renderRecord r ++ rest) = renderRecord r ++ rest := by
  simp only [renderRecord, List.cons_append]
  exact skipSpaces_cons _ (by decide)

/-- Parsing the rendered items of a nonempty well-formed user list, up
to the closing bracket, yields the list. -/
theorem parseItems_render : ∀ (users : List Record) (fuel : Nat) (rest : List Char),
    users ≠ [] → wfUsers users = true → totalCount users ≤ fuel →
    parseItems fuel (renderItems users ++ ']' :: rest) = some (users, rest) := by
  intro users
  induction users with
  | nil => intro fuel rest hne; exact absurd rfl hne
  | cons r more ih =>
      intro fuel rest _ hwf hfuel
      have hwr : wfRecord r = true ∧ wfUsers more = true := by
        simp only [wfUsers, List.all_cons, Bool.and_eq_true] at hwf
        exact hwf
      cases fuel with
      | zero => simp [totalCount] at hfuel
      | succ f =>
          have hf : r.length ≤ f := by
            simp only [totalCount] at hfuel
            omega
          cases more with
          | nil =>
              have hpr := parseRecord_render r f (']' :: rest) hwr.1 hf
              have hsk : skipSpaces (']' :: rest) = ']' :: rest :=
                skipSpaces_cons _ (by decide)
              have hne1 : ¬ (']' : Char) = ',' := by decide
              simp [renderItems, parseItems, hpr, hsk, hne1]
          | cons r2 tl2 =>
              have hshape : renderItems (r :: r2 :: tl2) ++ ']' :: rest =
                  renderRecord r ++
                    (',' :: ' ' :: (renderItems (r2 :: tl2) ++ ']' :: rest)) := by
                simp [renderItems]
              have hfuel2 : totalCount (r2 :: tl2) ≤ f := by
                simp only [totalCount] at hfuel ⊢
                omega
              have hpr := parseRecord_render r f
                (',' :: ' ' :: (renderItems (r2 :: tl2) ++ ']' :: rest)) hwr.1 hf
              have hsk1 : skipSpaces
                    (',' :: ' ' :: (renderItems (r2 :: tl2) ++ ']' :: rest)) =
                  ',' :: ' ' :: (renderItems (r2 :: tl2) ++ ']' :: rest) :=
                skipSpaces_cons _ (by decide)
              have hsk2 : skipSpaces
                    (' ' :: (renderItems (r2 :: tl2) ++ ']' :: rest)) =
                  renderItems (r2 :: tl2) ++ ']' :: rest := by
                rw [skipSpaces_space]
                rcases renderItems_head r2 tl2 with ⟨tl3, hh⟩
                rw [hh, List.cons_append]
                exact skipSpaces_cons _ (by decide)
              have hih := ih f rest (by simp) hwr.2 hfuel2
              rw [hshape]
              simp [parseItems, hpr, hsk1, hsk2, hih]

/-- A rendered pair is nonempty. -/
theorem renderPair_len (kv : String × Field) : 1 ≤ (renderPair kv).length := by
  cases kv with
  | mk k v => simp [renderPair]

/-- The rendered pairs are at least as many characters as pairs. -/
theorem renderPairs_len : ∀ r : Record, r.length ≤ (renderPairs r).length := by
  intro r
  induction r with
  | nil => simp [renderPairs]
  | cons kv more ih =>
      cases more with
      | nil => simpa [renderPairs] using renderPair_len kv
      | cons kv2 tl2 =>
          have h1 := renderPair_len kv
          simp only [renderPairs, List.length_append, List.length_cons] at ih ⊢
          omega

/-- A rendered record outweighs its pair count by the two braces. -/
theorem renderRecord_len (r : Record) : r.length + 2 ≤ (renderRecord r).length := by
  have h1 := renderPairs_len r
  simp only [renderRecord, List.length_cons, List.length_append, List.length_nil]
  omega

/-- The rendered items dominate the recursion budget `totalCount`. -/
theorem renderItems_len : ∀ users : List Record,
    totalCount users ≤ (renderItems users).length := by
  intro users
  induction users with
  | nil => simp [renderItems, totalCount]
  | cons r more ih =>
      cases more with
      | nil =>
          have h1 := renderRecord_len r
          simp only [renderItems, totalCount] at h1 ⊢
          omega
      | cons r2 tl2 =>
          have h1 := renderRecord_len r
          simp only [renderItems, totalCount, List.length_append,
            List.length_cons] at ih h1 ⊢
          omega

/-- C9: `export_json` followed by reading the destination back with the
JSON parser restores the record list exactly, field for field and in
order, for every record list whose strings are plain printable ASCII
(`json.dump` writes those verbatim); the empty list exports to the
empty top-level collection `[]`, which reads back as the empty list. -/
theorem C9_export_round_trip :
    (∀ users, wfUsers users = true → jsonLoads (export_json users) = some users) ∧
    export_json [] = "[]" ∧
    jsonLoads "[]" = some ([] : List Record) := by
  refine ⟨?_, rfl, rfl⟩
  intro users hwf
  cases users with
  | nil => rfl
  | cons u more =>
      rcases renderItems_head u more with ⟨tl3, hh⟩
      have hdata : (export_json (u :: more)).data =
          '[' :: ('{' :: (tl3 ++ [']'])) := by
        simp [export_json, jsonDumps, hh]
      have hsk0 : skipSpaces ('[' :: '{' :: (tl3 ++ [']'])) =
          '[' :: '{' :: (tl3 ++ [']']) := skipSpaces_cons _ (by decide)
      have hsk1 : skipSpaces ('{' :: (tl3 ++ [']'])) = '{' :: (tl3 ++ [']']) :=
        skipSpaces_cons _ (by decide)
      have hno : ¬ ('{' : Char) = ']' := by decide
      have hitems : ∀ fuel, totalCount (u :: more) ≤ fuel →
          parseItems fuel ('{' :: (tl3 ++ [']'])) = some (u :: more, []) := by
        intro fuel hf
        have hsh : '{' :: (tl3 ++ [']']) = renderItems (u :: more) ++ ']' :: [] := by
          rw [hh]
          rfl
        rw [hsh]
        exact parseItems_render (u :: more) fuel [] (by simp) hwf hf
      have hlen : totalCount (u :: more) ≤ tl3.length + 1 + 1 + 1 + 1 := by
        have h1 := renderItems_len (u :: more)
        rw [hh] at h1
        simp only [List.length_cons] at h1
        omega
      have hit := hitems (tl3.length + 1 + 1 + 1 + 1) hlen
      simp [jsonLoads, hdata, hsk0, hsk1, hno, hit]
      rfl

/-- Witness for C9 at the two records of the export test. -/
theorem C9_export_round_trip_witness :
    wfUsers aliceBob = true ∧ jsonLoads (export_json aliceBob) = some aliceBob :=
  ⟨by decide, C9_export_round_trip.1 aliceBob (by decide)⟩

end UserProc
